import Mathlib

/-!
Verification development for the ASET DevOps repair loop.

Shallow embedding of the core of `tboysavage/ASET`:
* `src/aset/utils/file_bundle.py` — the file-bundle codec (`parse_file_bundle`,
  `write_file_bundle`);
* `src/aset/agents/devops_engineer/agent.py` — the DevOps repair loop
  (`run`, `_install_dependencies`, `_run_backend_checks`, `_attempt_repair`);
* `src/aset/agents/devops_engineer/config.py` — `DevOpsRepairConfig`.

Python strings are modelled as `List Char`; Python `dict` as an
insertion-ordered association list; subprocess execution and the LLM call as
explicit oracles supplied through an environment record.
-/

namespace ASET

/-- Model of a Python string: a list of characters. -/
abbrev Str := List Char

/-- Python whitespace as used by `\s`, `str.strip` and `str.rstrip`
(ASCII part; the rare extra Unicode whitespace code points accepted by
Python are not modelled and are never produced by the code under study). -/
def isPyWs (c : Char) : Bool :=
  c == ' ' || c == '\t' || c == '\n' || c == '\r' || c == '\x0b' || c == '\x0c'

/-- Python `str.rstrip()` with no argument. -/
def rstrip (s : Str) : Str := (s.reverse.dropWhile isPyWs).reverse

/-- Python `str.lstrip()` with no argument. -/
def lstrip (s : Str) : Str := s.dropWhile isPyWs

/-- Python `str.strip()` with no argument. -/
def strip (s : Str) : Str := lstrip (rstrip s)

/-- Line-break characters recognised by Python `str.splitlines`
(ASCII and the common Unicode ones). -/
def isLineBreak (c : Char) : Bool :=
  c == '\n' || c == '\r' || c == '\x0b' || c == '\x0c' ||
  c == '\x1c' || c == '\x1d' || c == '\x1e' || c == '\x85' ||
  c == '\u2028' || c == '\u2029'

/-- Helper for `splitlines`: `acc` holds the current line reversed, and
`prevCR` records that the previous character was a carriage return (already
emitted as a break), so that a following line feed is swallowed — this
makes `\r\n` count as a single break. -/
def splitlinesAux : Str → Str → Bool → List Str
  | [], acc, _ => if acc.isEmpty then [] else [acc.reverse]
  | c :: rest, acc, prevCR =>
      if c = '\n' ∧ prevCR = true then splitlinesAux rest acc false
      else if isLineBreak c then acc.reverse :: splitlinesAux rest [] (c == '\r')
      else splitlinesAux rest (c :: acc) false

/-- Python `str.splitlines()`: split at line breaks (treating `\r\n` as one
break), never emitting a trailing empty line. -/
def splitlines (s : Str) : List Str := splitlinesAux s [] false

namespace Codec

/-- The literal `---FILE_START` head of `FILE_START_RE`. -/
def fileStartMarker : Str := "---FILE_START".data

/-- The literal `---FILE_END` head of `FILE_END_RE`. -/
def fileEndMarker : Str := "---FILE_END".data

/-- Three dashes, closing a marker line. -/
def dashes : Str := "---".data

/-- Model of matching `re.compile(r"^---FILE_START\s+(.+?)---\s*$").match(line)`
(and the `FILE_END` variant), composed with the `.strip()` the caller applies
to group 1.  A line matches exactly when, after the literal head, the
remainder ends (up to trailing whitespace) in `---`, and what stands before
that final `---` starts with a whitespace character and has at least two
characters (one for `\s+`, one for `.+?`).  The returned path is that middle
part stripped — which is exactly `m.group(1).strip()`, because `\s+` is
greedy, `(.+?)` is lazy, and the `---` closing the match is the unique
occurrence of `---` followed only by whitespace. -/
def matchMarker (pre : Str) (line : Str) : Option Str :=
  if pre.isPrefixOf line then
    let s := line.drop pre.length
    let r := s.reverse.dropWhile isPyWs
    if dashes.reverse.isPrefixOf r then
      match (r.drop 3).reverse with
      | [] => none
      | c :: rest => if isPyWs c && !rest.isEmpty then some (strip (c :: rest)) else none
    else none
  else none

/-- Classification of one input line, mirroring the order of the two regex
tests in the loop of `parse_file_bundle` (`FILE_START_RE` first, then
`FILE_END_RE`, else an ordinary line). -/
inductive Tok where
  | start (path : Str)
  | close (path : Str)
  | other (line : Str)
deriving DecidableEq

/-- Classify a line as a start marker, an end marker, or an ordinary line. -/
def classify (line : Str) : Tok :=
  match matchMarker fileStartMarker line with
  | some p => Tok.start p
  | none =>
      match matchMarker fileEndMarker line with
      | some p => Tok.close p
      | none => Tok.other line

/-- The error cases of `FileBundleParseError` raised by `parse_file_bundle`
(the formatted message text is not modelled, only which error is raised). -/
inductive FileBundleParseError where
  | nestedStart
  | endWithoutStart
  | mismatchedEnd
  | unclosedStart
  | noFiles
deriving DecidableEq

/-- Python `files[k] = v` on an insertion-ordered `dict` modelled as an
association list: an existing key keeps its position and gets the new value,
a new key is appended at the end. -/
def dictInsert {α : Type} (d : List (Str × α)) (k : Str) (v : α) : List (Str × α) :=
  if d.any (fun kv => kv.1 == k) then
    d.map (fun kv => if kv.1 == k then (k, v) else kv)
  else d ++ [(k, v)]

/-- Python `dict` lookup on the association-list model. -/
def dictLookup {α : Type} (d : List (Str × α)) (k : Str) : Option α :=
  (d.find? (fun kv => kv.1 == k)).map (fun kv => kv.2)

/-- The scanning loop of `parse_file_bundle` over the classified lines.
State: the files dict built so far, the currently open path (`current_path`)
and the buffered lines of the open block (`current_buf`).  The final
`if not files: raise` is folded into the end-of-input case. -/
def scanT : List Tok → List (Str × List Str) → Option Str → List Str →
    Except FileBundleParseError (List (Str × List Str))
  | [], _, some _, _ => Except.error FileBundleParseError.unclosedStart
  | [], files, none, _ =>
      if files.isEmpty then Except.error FileBundleParseError.noFiles else Except.ok files
  | Tok.start p :: rest, files, cur, _ =>
      match cur with
      | some _ => Except.error FileBundleParseError.nestedStart
      | none => scanT rest files (some p) []
  | Tok.close q :: rest, files, cur, buf =>
      match cur with
      | none => Except.error FileBundleParseError.endWithoutStart
      | some cp =>
          if q = cp then scanT rest (dictInsert files cp buf) none []
          else Except.error FileBundleParseError.mismatchedEnd
  | Tok.other l :: rest, files, cur, buf =>
      match cur with
      | some _ => scanT rest files cur (buf ++ [l])
      | none => scanT rest files cur buf

/-- Python `"\n".join(lines)`. -/
def joinLines : List Str → Str
  | [] => []
  | [l] => l
  | l :: rest => l ++ '\n' :: joinLines rest

/-- The per-file post-processing `"\n".join(buf).rstrip() + "\n"`. -/
def finalize (buf : List Str) : Str := rstrip (joinLines buf) ++ ['\n']

/-- The `FileBundle` dataclass: an (insertion-ordered) mapping path → content. -/
structure FileBundle where
  files : List (Str × Str)
deriving DecidableEq

/-- Model of `parse_file_bundle`: split the text into lines, scan the
`FILE_START`/`FILE_END` blocks, then join, right-strip and newline-terminate
each block's buffered lines. -/
def parse_file_bundle (text : Str) : Except FileBundleParseError FileBundle :=
  match scanT ((splitlines text).map classify) [] none [] with
  | Except.error e => Except.error e
  | Except.ok fs => Except.ok ⟨fs.map (fun kv => (kv.1, finalize kv.2))⟩

/-- Boolean test for the error case of an `Except`. -/
def isErrE {ε α : Type} : Except ε α → Bool
  | Except.error _ => true
  | Except.ok _ => false

/-- Boolean test for the success case of an `Except`. -/
def isOkE {ε α : Type} : Except ε α → Bool
  | Except.error _ => false
  | Except.ok _ => true

/-- The per-path normalization of `write_file_bundle`:
`rel_path.lstrip("/").replace("\\", "/")` — strip leading forward slashes,
then replace every backslash by a forward slash. -/
def normalizeRel (p : Str) : Str :=
  (p.dropWhile (fun c => c == '/')).map (fun c => if c == '\\' then '/' else c)

/-- Split a normalized relative path at `/`; `acc` holds the current segment
reversed. -/
def splitOnSlashAux : Str → Str → List Str
  | [], acc => [acc.reverse]
  | '/' :: rest, acc => acc.reverse :: splitOnSlashAux rest []
  | c :: rest, acc => splitOnSlashAux rest (c :: acc)

/-- Path components in the sense of `pathlib`: empty components (from doubled
or trailing slashes) and single-dot components are dropped; `..` components
are kept and are resolved only by the operating system at access time. -/
def segments (s : Str) : List Str :=
  (splitOnSlashAux s []).filter (fun seg => !seg.isEmpty && seg != ".".data)

/-- One step of operating-system path resolution: `..` pops the last
component (staying put at the filesystem root), any other component is
appended. -/
def resolveStep (acc : List Str) (seg : Str) : List Str :=
  if seg == "..".data then acc.dropLast else acc ++ [seg]

/-- Filesystem location finally written by `target = out_dir / rel_path;
target.write_text(...)`: the output root is a resolved absolute path given
as its component list; `pathlib` joining discards the root when the
normalized relative path still begins with `/` (which happens for bundle
paths beginning with a backslash); `..` components are resolved against the
accumulated prefix by the operating system. -/
def resolvedTarget (outDir : List Str) (relRaw : Str) : List Str :=
  let n := normalizeRel relRaw
  let base := if n.head? = some '/' then [] else outDir
  (segments n).foldl resolveStep base

/-- A resolved location lies beneath the output root exactly when the root's
components are a prefix of its components. -/
def underRoot (outDir target : List Str) : Bool := outDir.isPrefixOf target

/-- Model of `write_file_bundle`: for each bundle entry, the normalized path
is joined under `out_dir` and the content is written verbatim.  The
directory creation and the byte-writing are summarized by the list of
(resolved location, content) pairs the call produces, in bundle order. -/
def write_file_bundle (b : FileBundle) (outDir : List Str) : List (List Str × Str) :=
  b.files.map (fun kv => (resolvedTarget outDir kv.1, kv.2))

end Codec

namespace DevOps

open Codec

/-- The `DevOpsRepairConfig` dataclass from
`src/aset/agents/devops_engineer/config.py` (field order as in the source;
defaults there: 10, True, True, False, 15, 10). -/
structure DevOpsRepairConfig where
  max_iterations : Nat
  reinstall_on_change : Bool
  run_import_check : Bool
  run_uvicorn_check : Bool
  sleep_between_iterations : Nat
  transient_retry_delay : Nat
deriving DecidableEq

/-- The config with the source's default field values. -/
def defaultCfg : DevOpsRepairConfig := ⟨10, true, true, false, 15, 10⟩

/-- The phase tag passed to `_attempt_repair` ("install" or "checks"). -/
inductive Phase where
  | install
  | checks
deriving DecidableEq

/-- Observable filesystem/process effects of one `run` invocation, in
program order.  Log texts are carried verbatim; an `applyFile` event would
be one file written into the backend tree by the Patch Applier. -/
inductive Event where
  | sleep (secs : Nat)
  | writeInstallLog (i : Nat) (log : Str)
  | writeChecksLog (i : Nat) (log : Str)
  | writePatchError (ph : Phase) (i : Nat) (msg : Str)
  | writePatchRaw (ph : Phase) (i : Nat) (text : Str)
  | writeInvalidPatch (ph : Phase) (i : Nat) (text : Str)
  | applyFile (path : Str) (content : Str)
  | writeStatus (s : Str)
deriving DecidableEq

/-- Event is an install-log write. -/
def isInstallLogEv : Event → Bool
  | Event.writeInstallLog _ _ => true
  | _ => false

/-- Event is a checks-log write. -/
def isChecksLogEv : Event → Bool
  | Event.writeChecksLog _ _ => true
  | _ => false

/-- Event is a `patch_error_<phase>_<iteration>` artifact write. -/
def isPatchErrorEv : Event → Bool
  | Event.writePatchError _ _ _ => true
  | _ => false

/-- Event is a Patch Applier write into the backend tree. -/
def isApplyFileEv : Event → Bool
  | Event.applyFile _ _ => true
  | _ => false

/-- Stub environment for the repair loop: the outcome `(ok, log)` of
`_install_dependencies` and `_run_backend_checks` per iteration, and the
outcome of the Patch Oracle call (`self._call_llm`) per phase and
iteration — either the returned patch text or the raised exception's
message. -/
structure Env where
  install : Nat → Bool × Str
  checks : Nat → Bool × Str
  oracle : Phase → Nat → Except Str Str

/-- Model of `DevOpsEngineerAgent._attempt_repair` (agent.py lines 209–368).
The prompt assembly is pure string building feeding the oracle and is not
an observable effect.  On an oracle exception the method writes the
`patch_error` artifact and returns; on success it writes the raw patch text,
then parses it; a parse failure writes the `invalid_patch` artifact and
returns.  When the parse succeeds, the method body ends immediately after
`bundle = parse_file_bundle(patch_text)` — the parsed bundle is never used
and `write_file_bundle` (imported at the top of agent.py) is never called,
so no file of the backend tree is written on any branch. -/
def attempt_repair (env : Env) (ph : Phase) (i : Nat) : List Event :=
  match env.oracle ph i with
  | Except.error exc => [Event.writePatchError ph i exc]
  | Except.ok patchText =>
      Event.writePatchRaw ph i patchText ::
      (match parse_file_bundle patchText with
       | Except.error _ => [Event.writeInvalidPatch ph i patchText]
       | Except.ok _ => [])

/-- Text of `status.txt` on success: `SUCCESS on iteration <i>\n`. -/
def statusSuccess (i : Nat) : Str :=
  "SUCCESS on iteration ".data ++ Nat.toDigits 10 i ++ "\n".data

/-- Text of `status.txt` on failure: `FAILED after <n> iterations\n`. -/
def statusFailed (n : Nat) : Str :=
  "FAILED after ".data ++ Nat.toDigits 10 n ++ " iterations\n".data

/-- The throttling write at the top of the loop body: sleep before every
iteration but the first, when a positive delay is configured. -/
def sleepEv (cfg : DevOpsRepairConfig) (i : Nat) : List Event :=
  if 1 < i ∧ 0 < cfg.sleep_between_iterations
  then [Event.sleep cfg.sleep_between_iterations] else []

/-- The `for iteration in range(1, max_iterations + 1)` loop of `run`,
written with the remaining iteration count as fuel; `i` is the 1-based
iteration index.  Returns the effect trace of the loop body and `some k`
when the checks passed on iteration `k` (the early `return state`), `none`
when the loop ran to exhaustion. -/
def runIters (env : Env) (cfg : DevOpsRepairConfig) : Nat → Nat → List Event × Option Nat
  | _, 0 => ([], none)
  | i, fuel + 1 =>
      if (env.install i).1 = false then
        (sleepEv cfg i ++ [Event.writeInstallLog i (env.install i).2] ++
           attempt_repair env Phase.install i ++ (runIters env cfg (i + 1) fuel).1,
         (runIters env cfg (i + 1) fuel).2)
      else if (env.checks i).1 = true then
        (sleepEv cfg i ++ [Event.writeInstallLog i (env.install i).2] ++
           [Event.writeChecksLog i (env.checks i).2] ++
           [Event.writeStatus (statusSuccess i)],
         some i)
      else
        (sleepEv cfg i ++ [Event.writeInstallLog i (env.install i).2] ++
           [Event.writeChecksLog i (env.checks i).2] ++
           attempt_repair env Phase.checks i ++ (runIters env cfg (i + 1) fuel).1,
         (runIters env cfg (i + 1) fuel).2)

/-- The `ProjectState` document handed to `run` (its `spec.clarified_spec`
and `architecture.content` are only read, to build prompt context). -/
structure ProjectState where
  clarified_spec : Option Str
  architecture : Option Str
deriving DecidableEq

/-- The outcome of one `run` call: the effect trace and the returned state. -/
structure RunResult where
  trace : List Event
  state : ProjectState
deriving DecidableEq

/-- Model of `DevOpsEngineerAgent.run` (agent.py lines 38–125): run the
bounded iteration loop; on early success the `status.txt` write happened
inside the loop body just before `return state`; on exhaustion write the
FAILED status record; in both cases the method returns the `state` object
it was given. -/
def run (env : Env) (cfg : DevOpsRepairConfig) (state : ProjectState) : RunResult :=
  match (runIters env cfg 1 cfg.max_iterations).2 with
  | some _ => ⟨(runIters env cfg 1 cfg.max_iterations).1, state⟩
  | none =>
      ⟨(runIters env cfg 1 cfg.max_iterations).1 ++
         [Event.writeStatus (statusFailed cfg.max_iterations)], state⟩

/-- Stub environment for `_install_dependencies`: whether `.venv` exists,
the exit code and combined-output log fragment of `python -m venv` (used
only when the venv is missing), whether `requirements.txt` exists, and the
exit code and log fragment of `pip install -r requirements.txt`.  Each log
fragment stands for the `"$ <cmd>\n<stdout>\n"` string `run_cmd` appends. -/
structure InstallEnv where
  venvExists : Bool
  venvCreateCode : Int
  venvCreateOut : Str
  reqExists : Bool
  pipCode : Int
  pipOut : Str

/-- The log note appended when no manifest exists. -/
def skipNote : Str := "No requirements.txt found; skipping pip install.\n".data

/-- Model of `DevOpsEngineerAgent._install_dependencies` (agent.py lines
130–164; the lines after the first pair of `return` statements, 166–206,
are unreachable and are not modelled).  Create the venv when missing and
fail on a non-zero exit; then either run the installer against an existing
manifest and report its exit code, or report success with a skip note.
The platform-dependent `bin/` vs `Scripts/` interpreter paths only affect
the command strings inside the log fragments, which the stub supplies. -/
def install_dependencies (e : InstallEnv) : Bool × Str :=
  let lines0 : List Str := if e.venvExists then [] else [e.venvCreateOut]
  if e.venvExists = false ∧ e.venvCreateCode ≠ 0 then
    (false, lines0.flatten)
  else if e.reqExists then
    (e.pipCode == 0, (lines0 ++ [e.pipOut]).flatten)
  else
    (true, (lines0 ++ [skipNote]).flatten)

/-- Outcome of one `subprocess.Popen(...)` + `communicate()` in `run_cmd`:
either the process launched and finished with an exit code and combined
output, or `Popen` itself raised (for example `FileNotFoundError` when the
venv interpreter is missing). -/
inductive Spawned where
  | launched (code : Int) (out : Str)
  | failed (msg : Str)
deriving DecidableEq

/-- Stub environment for `_run_backend_checks`: the structural facts about
the backend tree and the outcome of each command the method may spawn. -/
structure ChecksEnv where
  hasPyFiles : Bool
  hasRunBackend : Bool
  hasAppMain : Bool
  hasCheckBackend : Bool
  importCheck : Spawned
  runtimeCheck : Spawned

/-- The `missing` list computed over
`required = ["run_backend.py", "app/main.py", "check_backend.py"]`. -/
def missingRequired (e : ChecksEnv) : List Str :=
  (if e.hasRunBackend then [] else ["run_backend.py".data]) ++
  (if e.hasAppMain then [] else ["app/main.py".data]) ++
  (if e.hasCheckBackend then [] else ["check_backend.py".data])

/-- Python `", ".join`. -/
def joinCommaSp : List Str → Str
  | [] => []
  | [s] => s
  | s :: rest => s ++ ", ".data ++ joinCommaSp rest

/-- The header line appended before the runtime startup check. -/
def uvHeader : Str := "=== Running backend startup check ===\n".data

/-- Model of `DevOpsEngineerAgent._run_backend_checks` (agent.py lines
369–417).  Structural checks return a failing pair without spawning
anything.  Then the import check (when `run_import_check` is set and
`check_backend.py` exists) and the runtime startup check (when
`run_uvicorn_check` is set) each spawn a command with bare
`subprocess.Popen`: there is no surrounding try/except, so a launch failure
propagates out of the method as an exception, modelled by `Except.error`
(any log lines appended before the raise are discarded with the frame). -/
def run_backend_checks (cfg : DevOpsRepairConfig) (e : ChecksEnv) : Except Str (Bool × Str) :=
  if e.hasPyFiles = false then
    Except.ok (false, "No Python source files found in backend.\n".data)
  else if (missingRequired e).isEmpty = false then
    Except.ok (false, "Missing required files: ".data ++ joinCommaSp (missingRequired e) ++ "\n".data)
  else
    let step1 : Except Str (Bool × List Str) :=
      if cfg.run_import_check && e.hasCheckBackend then
        match e.importCheck with
        | Spawned.failed msg => Except.error msg
        | Spawned.launched code out => Except.ok (code == 0, [out])
      else Except.ok (true, [])
    match step1 with
    | Except.error m => Except.error m
    | Except.ok (ok1, l1) =>
        if cfg.run_uvicorn_check then
          match e.runtimeCheck with
          | Spawned.failed msg => Except.error msg
          | Spawned.launched code out =>
              Except.ok (ok1 && code == 0, (l1 ++ [uvHeader, out]).flatten)
        else Except.ok (ok1, l1.flatten)

end DevOps

namespace DevOps

/-! Helper lemmas about the repair loop. -/

theorem attempt_repair_events (env : Env) (ph : Phase) (i : Nat) :
    ∀ e ∈ attempt_repair env ph i,
      isInstallLogEv e = false ∧ isChecksLogEv e = false ∧ isApplyFileEv e = false := by
  intro e he
  cases ho : env.oracle ph i with
  | error exc =>
    simp only [attempt_repair, ho, List.mem_singleton] at he
    subst he
    exact ⟨rfl, rfl, rfl⟩
  | ok t =>
    cases hp : Codec.parse_file_bundle t with
    | error pe =>
      simp only [attempt_repair, ho, hp, List.mem_cons, List.mem_singleton,
        List.not_mem_nil, or_false] at he
      rcases he with rfl | rfl <;> exact ⟨rfl, rfl, rfl⟩
    | ok fb =>
      simp only [attempt_repair, ho, hp, List.mem_cons, List.not_mem_nil, or_false] at he
      subst he
      exact ⟨rfl, rfl, rfl⟩

theorem attempt_repair_countP_install (env : Env) (ph : Phase) (i : Nat) :
    (attempt_repair env ph i).countP isInstallLogEv = 0 :=
  List.countP_eq_zero.mpr fun e he => by
    simp [(attempt_repair_events env ph i e he).1]

theorem attempt_repair_countP_checks (env : Env) (ph : Phase) (i : Nat) :
    (attempt_repair env ph i).countP isChecksLogEv = 0 :=
  List.countP_eq_zero.mpr fun e he => by
    simp [(attempt_repair_events env ph i e he).2.1]

theorem sleepEv_countP (cfg : DevOpsRepairConfig) (i : Nat) (p : Event → Bool)
    (h : ∀ s, p (Event.sleep s) = false) : (sleepEv cfg i).countP p = 0 := by
  unfold sleepEv
  split
  · simp [List.countP_cons, h]
  · rfl

theorem runIters_all_fail (env : Env) (cfg : DevOpsRepairConfig)
    (h : ∀ i, ¬((env.install i).1 = true ∧ (env.checks i).1 = true)) :
    ∀ fuel i, (runIters env cfg i fuel).2 = none ∧
      (runIters env cfg i fuel).1.countP isInstallLogEv = fuel := by
  intro fuel
  induction fuel with
  | zero => exact fun i => ⟨rfl, rfl⟩
  | succ f ih =>
    intro i
    cases hinst : (env.install i).1 with
    | false =>
      have hrec := ih (i + 1)
      simp only [runIters, hinst, if_pos rfl]
      refine ⟨hrec.1, ?_⟩
      simp [List.countP_append, sleepEv_countP cfg i isInstallLogEv (fun s => rfl),
        attempt_repair_countP_install, hrec.2, List.countP_cons, isInstallLogEv]
    | true =>
      have hchk : (env.checks i).1 = false := by
        cases hc : (env.checks i).1 with
        | false => rfl
        | true => exact absurd ⟨hinst, hc⟩ (h i)
      have hrec := ih (i + 1)
      simp only [runIters, hinst, hchk]
      norm_num
      refine ⟨hrec.1, ?_⟩
      simp [List.countP_append, sleepEv_countP cfg i isInstallLogEv (fun s => rfl),
        attempt_repair_countP_install, hrec.2, List.countP_cons, isInstallLogEv]

/-- C6: with the claim's stub hypothesis — install and checks never both
succeed in one iteration — the loop writes one install log per iteration
for exactly `max_iterations` iterations, the final status record reads
`FAILED after <max_iterations> iterations`, and the method returns its
state normally. -/
theorem C6_failed_after_max_iterations (env : Env) (cfg : DevOpsRepairConfig)
    (state : ProjectState) (hN : 1 ≤ cfg.max_iterations)
    (h : ∀ i, ¬((env.install i).1 = true ∧ (env.checks i).1 = true)) :
    (run env cfg state).trace.countP isInstallLogEv = cfg.max_iterations ∧
    (run env cfg state).trace.getLast? =
      some (Event.writeStatus (statusFailed cfg.max_iterations)) ∧
    (run env cfg state).state = state := by
  have hr := runIters_all_fail env cfg h cfg.max_iterations 1
  unfold run
  rw [hr.1]
  refine ⟨?_, ?_, rfl⟩
  · simp [List.countP_append, hr.2, List.countP_cons, isInstallLogEv]
  · exact List.getLast?_concat _

/-- Demo state document. -/
def psDemo : ProjectState := ⟨none, none⟩

/-- Stub environment whose install step always fails and whose oracle call
always raises. -/
def envAllFail : Env :=
  ⟨fun _ => (false, []), fun _ => (false, []), fun _ _ => Except.error "quota exceeded".data⟩

theorem C6_witness :
    (run envAllFail defaultCfg psDemo).trace.countP isInstallLogEv = defaultCfg.max_iterations ∧
    (run envAllFail defaultCfg psDemo).trace.getLast? =
      some (Event.writeStatus (statusFailed defaultCfg.max_iterations)) ∧
    (run envAllFail defaultCfg psDemo).state = psDemo :=
  C6_failed_after_max_iterations envAllFail defaultCfg psDemo (by decide)
    (fun i => by simp [envAllFail])

theorem runIters_step_install_fail (env : Env) (cfg : DevOpsRepairConfig) (i fuel : Nat)
    (h : (env.install i).1 = false) :
    runIters env cfg i (fuel + 1) =
      (sleepEv cfg i ++ [Event.writeInstallLog i (env.install i).2] ++
         attempt_repair env Phase.install i ++ (runIters env cfg (i + 1) fuel).1,
       (runIters env cfg (i + 1) fuel).2) := by
  simp [runIters, h]

theorem runIters_step_success (env : Env) (cfg : DevOpsRepairConfig) (i fuel : Nat)
    (hinst : (env.install i).1 = true) (hchk : (env.checks i).1 = true) :
    runIters env cfg i (fuel + 1) =
      (sleepEv cfg i ++ [Event.writeInstallLog i (env.install i).2] ++
         [Event.writeChecksLog i (env.checks i).2] ++
         [Event.writeStatus (statusSuccess i)],
       some i) := by
  simp [runIters, hinst, hchk]

theorem runIters_step_checks_fail (env : Env) (cfg : DevOpsRepairConfig) (i fuel : Nat)
    (hinst : (env.install i).1 = true) (hchk : (env.checks i).1 = false) :
    runIters env cfg i (fuel + 1) =
      (sleepEv cfg i ++ [Event.writeInstallLog i (env.install i).2] ++
         [Event.writeChecksLog i (env.checks i).2] ++
         attempt_repair env Phase.checks i ++ (runIters env cfg (i + 1) fuel).1,
       (runIters env cfg (i + 1) fuel).2) := by
  simp [runIters, hinst, hchk]

theorem runIters_first_success (env : Env) (cfg : DevOpsRepairConfig) (k : Nat)
    (hinst : ∀ i, (env.install i).1 = true)
    (hfail : ∀ i, 1 ≤ i → i < k → (env.checks i).1 = false)
    (hk : (env.checks k).1 = true) :
    ∀ d i fuel, 1 ≤ i → i + d = k → d < fuel →
      (runIters env cfg i fuel).2 = some k ∧
      (runIters env cfg i fuel).1.countP isInstallLogEv = d + 1 ∧
      (runIters env cfg i fuel).1.countP isChecksLogEv = d + 1 ∧
      ∃ t, (runIters env cfg i fuel).1 = t ++ [Event.writeStatus (statusSuccess k)] := by
  intro d
  induction d with
  | zero =>
    intro i fuel h1 hik hf
    cases fuel with
    | zero => omega
    | succ f =>
      have hi : i = k := by omega
      subst hi
      rw [runIters_step_success env cfg i f (hinst i) hk]
      refine ⟨rfl, ?_, ?_, ?_⟩
      · simp [List.countP_append, sleepEv_countP cfg i isInstallLogEv (fun s => rfl),
          List.countP_cons, isInstallLogEv]
      · simp [List.countP_append, sleepEv_countP cfg i isChecksLogEv (fun s => rfl),
          List.countP_cons, isChecksLogEv]
      · exact ⟨sleepEv cfg i ++ [Event.writeInstallLog i (env.install i).2] ++
          [Event.writeChecksLog i (env.checks i).2], by simp⟩
  | succ d ih =>
    intro i fuel h1 hik hf
    cases fuel with
    | zero => omega
    | succ f =>
      have hlt : i < k := by omega
      have hc := hfail i h1 hlt
      have hrec := ih (i + 1) f (by omega) (by omega) (by omega)
      rw [runIters_step_checks_fail env cfg i f (hinst i) hc]
      refine ⟨hrec.1, ?_, ?_, ?_⟩
      · simp [List.countP_append, sleepEv_countP cfg i isInstallLogEv (fun s => rfl),
          attempt_repair_countP_install, hrec.2.1, List.countP_cons, List.countP_nil,
          isInstallLogEv]
      · simp [List.countP_append, sleepEv_countP cfg i isChecksLogEv (fun s => rfl),
          attempt_repair_countP_checks, hrec.2.2.1, List.countP_cons, List.countP_nil,
          isChecksLogEv]
      · obtain ⟨t, ht⟩ := hrec.2.2.2
        refine ⟨sleepEv cfg i ++ [Event.writeInstallLog i (env.install i).2] ++
          [Event.writeChecksLog i (env.checks i).2] ++
          attempt_repair env Phase.checks i ++ t, ?_⟩
        rw [ht]
        simp

/-- C7: with install succeeding every iteration and the checks first
succeeding on iteration `k ≤ max_iterations`, the loop stops at iteration
`k` with exactly `k` install logs and exactly `k` checks logs written, the
status record reads `SUCCESS on iteration <k>`, and the state is returned
unchanged. -/
theorem C7_success_on_iteration_k (env : Env) (cfg : DevOpsRepairConfig)
    (state : ProjectState) (k : Nat) (h1 : 1 ≤ k) (h2 : k ≤ cfg.max_iterations)
    (hinst : ∀ i, (env.install i).1 = true)
    (hfail : ∀ i, 1 ≤ i → i < k → (env.checks i).1 = false)
    (hk : (env.checks k).1 = true) :
    (run env cfg state).trace.countP isInstallLogEv = k ∧
    (run env cfg state).trace.countP isChecksLogEv = k ∧
    (run env cfg state).trace.getLast? = some (Event.writeStatus (statusSuccess k)) ∧
    (run env cfg state).state = state := by
  have hr := runIters_first_success env cfg k hinst hfail hk (k - 1) 1 cfg.max_iterations
    (le_refl 1) (by omega) (by omega)
  unfold run
  rw [hr.1]
  refine ⟨?_, ?_, ?_, rfl⟩
  · rw [hr.2.1]; omega
  · rw [hr.2.2.1]; omega
  · obtain ⟨t, ht⟩ := hr.2.2.2
    rw [ht]
    exact List.getLast?_concat _

/-- Stub environment whose install step always succeeds and whose checks
fail on iteration 1 and succeed from iteration 2 on. -/
def envSecondTry : Env :=
  ⟨fun _ => (true, []), fun i => (decide (2 ≤ i), []), fun _ _ => Except.error []⟩

theorem C7_witness :
    (run envSecondTry defaultCfg psDemo).trace.countP isInstallLogEv = 2 ∧
    (run envSecondTry defaultCfg psDemo).trace.countP isChecksLogEv = 2 ∧
    (run envSecondTry defaultCfg psDemo).trace.getLast? =
      some (Event.writeStatus (statusSuccess 2)) ∧
    (run envSecondTry defaultCfg psDemo).state = psDemo :=
  C7_success_on_iteration_k envSecondTry defaultCfg psDemo 2 (by decide) (by decide)
    (fun i => rfl) (fun i hi1 hi2 => by simp [envSecondTry]; omega) (by decide)

theorem attempt_repair_oracle_error (env : Env) (ph : Phase) (i : Nat)
    (hE : Codec.isErrE (env.oracle ph i) = true) :
    ∃ exc, env.oracle ph i = Except.error exc ∧
      attempt_repair env ph i = [Event.writePatchError ph i exc] := by
  cases ho : env.oracle ph i with
  | error exc => exact ⟨exc, rfl, by simp [attempt_repair, ho]⟩
  | ok t => rw [ho] at hE; exact absurd hE (by simp [Codec.isErrE])

theorem runIters_oracle_fail (env : Env) (cfg : DevOpsRepairConfig)
    (horacle : ∀ ph i, Codec.isErrE (env.oracle ph i) = true)
    (h : ∀ i, ¬((env.install i).1 = true ∧ (env.checks i).1 = true)) :
    ∀ fuel i, (runIters env cfg i fuel).1.countP isPatchErrorEv = fuel ∧
      (runIters env cfg i fuel).1.countP isApplyFileEv = 0 := by
  intro fuel
  induction fuel with
  | zero => exact fun i => ⟨rfl, rfl⟩
  | succ f ih =>
    intro i
    have hrec := ih (i + 1)
    obtain ⟨excI, hoI, hAI⟩ :=
      attempt_repair_oracle_error env Phase.install i (horacle Phase.install i)
    obtain ⟨excC, hoC, hAC⟩ :=
      attempt_repair_oracle_error env Phase.checks i (horacle Phase.checks i)
    cases hinst : (env.install i).1 with
    | false =>
      rw [runIters_step_install_fail env cfg i f hinst]
      constructor
      · simp [List.countP_append, sleepEv_countP cfg i isPatchErrorEv (fun s => rfl),
          hAI, hrec.1, List.countP_cons, List.countP_nil, isPatchErrorEv]
      · simp [List.countP_append, sleepEv_countP cfg i isApplyFileEv (fun s => rfl),
          hAI, hrec.2, List.countP_cons, List.countP_nil, isApplyFileEv]
    | true =>
      have hchk : (env.checks i).1 = false := by
        cases hc : (env.checks i).1 with
        | false => rfl
        | true => exact absurd ⟨hinst, hc⟩ (h i)
      rw [runIters_step_checks_fail env cfg i f hinst hchk]
      constructor
      · simp [List.countP_append, sleepEv_countP cfg i isPatchErrorEv (fun s => rfl),
          hAC, hrec.1, List.countP_cons, List.countP_nil, isPatchErrorEv]
      · simp [List.countP_append, sleepEv_countP cfg i isApplyFileEv (fun s => rfl),
          hAC, hrec.2, List.countP_cons, List.countP_nil, isApplyFileEv]

/-- C9: a repair attempt whose oracle call raises writes exactly the
`patch_error_<phase>_<iteration>` artifact and nothing else (in particular
no backend file) and returns normally; with a persistently failing oracle
and no fully succeeding iteration, the loop ends `FAILED` after
`max_iterations`, the trace contains zero Patch Applier writes and exactly
one patch-error artifact per failed call. -/
theorem C9_oracle_failure_bounded (env : Env) (cfg : DevOpsRepairConfig)
    (state : ProjectState) (hN : 1 ≤ cfg.max_iterations)
    (horacle : ∀ ph i, Codec.isErrE (env.oracle ph i) = true)
    (h : ∀ i, ¬((env.install i).1 = true ∧ (env.checks i).1 = true)) :
    (∀ ph i exc, env.oracle ph i = Except.error exc →
      attempt_repair env ph i = [Event.writePatchError ph i exc]) ∧
    (∀ e ∈ (run env cfg state).trace, isApplyFileEv e = false) ∧
    (run env cfg state).trace.countP isPatchErrorEv = cfg.max_iterations ∧
    (run env cfg state).trace.getLast? =
      some (Event.writeStatus (statusFailed cfg.max_iterations)) := by
  have hnone := runIters_all_fail env cfg h cfg.max_iterations 1
  have hcnt := runIters_oracle_fail env cfg horacle h cfg.max_iterations 1
  unfold run
  rw [hnone.1]
  refine ⟨?_, ?_, ?_, ?_⟩
  · intro ph i exc ho
    simp [attempt_repair, ho]
  · intro e he
    have hz : (((runIters env cfg 1 cfg.max_iterations).1 ++
        [Event.writeStatus (statusFailed cfg.max_iterations)]).countP isApplyFileEv) = 0 := by
      simp [List.countP_append, hcnt.2, List.countP_cons, List.countP_nil, isApplyFileEv]
    have := List.countP_eq_zero.mp hz e he
    simpa using this
  · simp [List.countP_append, hcnt.1, List.countP_cons, isPatchErrorEv]
  · exact List.getLast?_concat _

theorem C9_witness :
    (∀ ph i exc, envAllFail.oracle ph i = Except.error exc →
      attempt_repair envAllFail ph i = [Event.writePatchError ph i exc]) ∧
    (∀ e ∈ (run envAllFail defaultCfg psDemo).trace, isApplyFileEv e = false) ∧
    (run envAllFail defaultCfg psDemo).trace.countP isPatchErrorEv =
      defaultCfg.max_iterations ∧
    (run envAllFail defaultCfg psDemo).trace.getLast? =
      some (Event.writeStatus (statusFailed defaultCfg.max_iterations)) :=
  C9_oracle_failure_bounded envAllFail defaultCfg psDemo (by decide)
    (fun ph i => rfl) (fun i => by simp [envAllFail])

/-- C10: `run` returns the very `ProjectState` it was given, on the
success path and on the failure path alike; the state document is only
read, never replaced or mutated. -/
theorem C10_state_returned_unchanged (env : Env) (cfg : DevOpsRepairConfig)
    (state : ProjectState) : (run env cfg state).state = state := by
  unfold run
  cases (runIters env cfg 1 cfg.max_iterations).2 <;> rfl

/-- A syntactically valid one-file patch bundle, as the Patch Oracle is
instructed to produce it. -/
def patchOkText : Str :=
  "---FILE_START backend/app/main.py---\nx = 1\n---FILE_END backend/app/main.py---".data

/-- Stub environment whose oracle call always returns `patchOkText`. -/
def envGoodPatch : Env :=
  ⟨fun _ => (true, []), fun _ => (false, []), fun _ _ => Except.ok patchOkText⟩

/-- C1 (code bug): a repair attempt whose oracle output parses under the
bundle grammar still applies nothing — the method's effects are exactly the
raw-patch artifact write, with no Patch Applier write into the backend
tree, because the source's `_attempt_repair` ends right after
`bundle = parse_file_bundle(patch_text)` without ever using the bundle
(`write_file_bundle` is imported in agent.py but never called), contrary to
the docstrings "applies patches" on the class and on `run`. -/
theorem C1_parsed_bundle_never_applied :
    Codec.isOkE (Codec.parse_file_bundle patchOkText) = true ∧
    attempt_repair envGoodPatch Phase.checks 1 =
      [Event.writePatchRaw Phase.checks 1 patchOkText] ∧
    (attempt_repair envGoodPatch Phase.checks 1).countP isApplyFileEv = 0 := by
  refine ⟨?_, ?_, ?_⟩ <;> decide

/-- Install-step stub: venv missing, venv creation exits 1, no manifest. -/
def instEnvVenvFails : InstallEnv :=
  ⟨false, 1, "$ python -m venv .venv\nvenv: error\n".data, false, 0, []⟩

/-- C8 counterexample: when the venv is missing and its creation exits
non-zero, `_install_dependencies` returns ok=false even though no
dependency manifest exists — refuting "returns ok=true ... whenever no
dependency manifest exists". -/
theorem C8_counterexample :
    instEnvVenvFails.reqExists = false ∧
    (install_dependencies instEnvVenvFails).1 = false := by
  exact ⟨rfl, rfl⟩

/-- C8 (amended): provided the venv step does not fail (the venv already
exists or `python -m venv` exits 0): with no manifest the result is ok=true
and the log ends with the skip note; with a manifest the result is
ok = (pip exit code == 0). -/
theorem C8_install_amended (e : InstallEnv)
    (h : e.venvExists = true ∨ e.venvCreateCode = 0) :
    (e.reqExists = false →
      (install_dependencies e).1 = true ∧
      ∃ pre, (install_dependencies e).2 = pre ++ skipNote) ∧
    (e.reqExists = true →
      (install_dependencies e).1 = (e.pipCode == 0)) := by
  constructor
  · intro hreq
    rcases h with h | h
    · constructor
      · simp [install_dependencies, h, hreq]
      · exact ⟨[], by simp [install_dependencies, h, hreq]⟩
    · by_cases hv : e.venvExists
      · exact ⟨by simp [install_dependencies, hv, hreq], ⟨[], by simp [install_dependencies, hv, hreq]⟩⟩
      · refine ⟨by simp [install_dependencies, hv, h, hreq], ⟨e.venvCreateOut, ?_⟩⟩
        simp [install_dependencies, hv, h, hreq]
  · intro hreq
    rcases h with h | h
    · simp [install_dependencies, h, hreq]
    · by_cases hv : e.venvExists
      · simp [install_dependencies, hv, hreq]
      · simp [install_dependencies, hv, h, hreq]

/-- Install-step stub: venv present, no manifest. -/
def instEnvNoManifest : InstallEnv := ⟨true, 0, [], false, 0, []⟩

theorem C8_witness :
    (install_dependencies instEnvNoManifest).1 = true ∧
    ∃ pre, (install_dependencies instEnvNoManifest).2 = pre ++ skipNote :=
  (C8_install_amended instEnvNoManifest (Or.inl rfl)).1 rfl

/-- Validator stub: backend structurally complete, but the venv interpreter
is missing, so `subprocess.Popen` for the import check raises
`FileNotFoundError`. -/
def checksEnvNoInterp : ChecksEnv :=
  ⟨true, true, true, true,
   Spawned.failed "FileNotFoundError: .venv/bin/python".data,
   Spawned.launched 0 []⟩

/-- C3 counterexample: under the default configuration (import check
enabled) a failing command launch propagates out of `_run_backend_checks`
as an exception instead of being folded into a failing `(ok, log)` result —
refuting "never raises ... including a missing interpreter". -/
theorem C3_counterexample :
    Codec.isErrE (run_backend_checks defaultCfg checksEnvNoInterp) = true := by
  decide

/-- Whether a spawn outcome is a successful process launch. -/
def isLaunched : Spawned → Bool
  | Spawned.launched _ _ => true
  | Spawned.failed _ => false

/-- C3 (amended): `_run_backend_checks` returns a `(ok, log)` pair — with
structural failures folded into a failing result — provided every command
it may spawn launches successfully; only a failed process launch (such as a
missing interpreter) escapes as an exception. -/
theorem C3_validator_total_amended (cfg : DevOpsRepairConfig) (e : ChecksEnv)
    (h1 : cfg.run_import_check = true → isLaunched e.importCheck = true)
    (h2 : cfg.run_uvicorn_check = true → isLaunched e.runtimeCheck = true) :
    Codec.isOkE (run_backend_checks cfg e) = true := by
  unfold run_backend_checks
  by_cases hpy : e.hasPyFiles = false
  · rw [if_pos hpy]
    rfl
  · rw [if_neg hpy]
    by_cases hmiss : (missingRequired e).isEmpty = false
    · rw [if_pos hmiss]
      rfl
    · rw [if_neg hmiss]
      have h1' := h1
      have h2' := h2
      cases himp : (cfg.run_import_check && e.hasCheckBackend) with
      | true =>
        have hL := h1 ((Bool.and_eq_true _ _).mp himp).1
        cases hic : e.importCheck with
        | failed msg =>
          rw [hic] at hL
          simp [isLaunched] at hL
        | launched code out =>
          cases huv : cfg.run_uvicorn_check with
          | true =>
            have hL2 := h2 huv
            cases hrc : e.runtimeCheck with
            | failed msg =>
              rw [hrc] at hL2
              simp [isLaunched] at hL2
            | launched code2 out2 => rfl
          | false => rfl
      | false =>
        cases huv : cfg.run_uvicorn_check with
        | true =>
          have hL2 := h2 huv
          cases hrc : e.runtimeCheck with
          | failed msg =>
            rw [hrc] at hL2
            simp [isLaunched] at hL2
          | launched code2 out2 => rfl
        | false => rfl

/-- Validator stub: everything present and both commands launch. -/
def checksEnvHealthy : ChecksEnv :=
  ⟨true, true, true, true, Spawned.launched 0 "ok\n".data, Spawned.launched 0 []⟩

theorem C3_witness :
    Codec.isOkE (run_backend_checks defaultCfg checksEnvHealthy) = true :=
  C3_validator_total_amended defaultCfg checksEnvHealthy (fun _ => rfl) (fun _ => rfl)

end DevOps

namespace Codec

/-- Demo output root, as resolved absolute components. -/
def outDirDemo : List Str := ["workspace".data, "backend".data]

/-- A bundle whose single path climbs out of the output root. -/
def evilBundle : FileBundle := ⟨[("../evil.txt".data, "x\n".data)]⟩

/-- C2 counterexample: `write_file_bundle` writes the path `../evil.txt`
to a location that is not beneath the output root — the normalization
strips leading `/` and rewrites `\` but does not reject `..` segments. -/
theorem C2_counterexample :
    (write_file_bundle evilBundle outDirDemo).map Prod.fst =
      [["workspace".data, "evil.txt".data]] ∧
    underRoot outDirDemo ["workspace".data, "evil.txt".data] = false := by
  exact ⟨rfl, rfl⟩

theorem resolveStep_preserves_prefix (outDir : List Str) (segs : List Str)
    (hno : "..".data ∉ segs) :
    ∀ acc, outDir.isPrefixOf acc = true →
      outDir.isPrefixOf (segs.foldl resolveStep acc) = true := by
  induction segs with
  | nil => exact fun acc h => h
  | cons s rest ih =>
    intro acc hacc
    have hs : ¬s = "..".data := fun h => hno (by simp [h])
    have hrest : "..".data ∉ rest := fun h => hno (List.mem_cons_of_mem _ h)
    rw [List.foldl_cons]
    refine ih hrest (resolveStep acc s) ?_
    unfold resolveStep
    rw [if_neg (by simpa using hs)]
    rw [List.isPrefixOf_iff_prefix] at hacc ⊢
    exact hacc.trans (List.prefix_append _ _)

/-- C2 (amended): every path written by `write_file_bundle` has leading
slashes stripped and backslashes rewritten to slashes; when no normalized
path begins with a separator (no leading backslash in the original) and no
normalized path carries a `..` segment, every write resolves to a location
beneath the output root.  (Paths with `..` segments — see the
counterexample — or with a leading backslash can escape the root.) -/
theorem C2_path_confined_amended (outDir : List Str) (b : FileBundle)
    (hsafe : ∀ kv ∈ b.files, (normalizeRel kv.1).head? ≠ some '/' ∧
      "..".data ∉ segments (normalizeRel kv.1)) :
    ∀ w ∈ write_file_bundle b outDir, underRoot outDir w.1 = true := by
  intro w hw
  unfold write_file_bundle at hw
  rcases List.mem_map.mp hw with ⟨kv, hkv, rfl⟩
  obtain ⟨habs, hdd⟩ := hsafe kv hkv
  simp only [underRoot, resolvedTarget]
  rw [if_neg habs]
  exact resolveStep_preserves_prefix outDir (segments (normalizeRel kv.1)) hdd outDir
    (List.isPrefixOf_iff_prefix.mpr (List.prefix_refl _))

/-- A bundle with ordinary relative paths. -/
def tameBundle : FileBundle :=
  ⟨[("backend/app/main.py".data, "x\n".data), ("/requirements.txt".data, "fastapi\n".data)]⟩

theorem C2_witness :
    underRoot outDirDemo ((resolvedTarget outDirDemo "backend/app/main.py".data,
      ("x\n".data : Str)).1) = true :=
  C2_path_confined_amended outDirDemo tameBundle (by decide)
    (resolvedTarget outDirDemo "backend/app/main.py".data, "x\n".data) (by decide)

/-! Support for the codec round-trip (claim C4): rendering well-formed
block lists to wire text and running the parser over the result. -/

/-- A path the wire grammar renders and recovers verbatim: nonempty and
free of whitespace (file paths in practice; whitespace would be eaten by
the `\s+`/`.strip()` of the marker regexes, and line breaks would split
the marker line). -/
def goodPath (p : Str) : Prop := p ≠ [] ∧ ∀ c ∈ p, isPyWs c = false ∧ isLineBreak c = false

/-- The marker line opening a block for path `p`. -/
def startLine (p : Str) : Str := fileStartMarker ++ ' ' :: (p ++ dashes)

/-- The marker line closing a block for path `p`. -/
def endLine (p : Str) : Str := fileEndMarker ++ ' ' :: (p ++ dashes)

theorem dropWhile_ws_cons (c : Char) (l : Str) (h : isPyWs c = false) :
    (c :: l).dropWhile isPyWs = c :: l := by
  rw [List.dropWhile_cons, if_neg (by simp [h])]

theorem rstrip_eq_self (s : Str)
    (h : ∀ c, s.getLast? = some c → isPyWs c = false) : rstrip s = s := by
  unfold rstrip
  cases hs : s.reverse with
  | nil =>
    have hnil : s = [] := by simpa using congrArg List.reverse hs
    subst hnil
    rfl
  | cons c t =>
    have hlast : s.getLast? = some c := by
      rw [← List.head?_reverse, hs]
      rfl
    rw [dropWhile_ws_cons c t (h c hlast), ← hs, List.reverse_reverse]

theorem strip_space_cons (p : Str) (hp : p ≠ [])
    (h : ∀ c ∈ p, isPyWs c = false) : strip (' ' :: p) = p := by
  cases p with
  | nil => exact absurd rfl hp
  | cons b q =>
    have h1 : rstrip (' ' :: b :: q) = ' ' :: b :: q := by
      refine rstrip_eq_self _ (fun c hc => ?_)
      rw [List.getLast?_cons_cons] at hc
      exact h c (List.mem_of_mem_getLast? (Option.mem_def.mpr hc))
    unfold strip lstrip
    rw [h1]
    rw [List.dropWhile_cons, if_pos (by simp [isPyWs])]
    exact dropWhile_ws_cons b q (h b (List.mem_cons_self b q))

theorem matchMarker_render (pre p : Str) (hp : p ≠ [])
    (h : ∀ c ∈ p, isPyWs c = false) :
    matchMarker pre (pre ++ ' ' :: (p ++ dashes)) = some p := by
  have hdr : dashes.reverse = dashes := rfl
  have hrev : (' ' :: (p ++ dashes)).reverse.dropWhile isPyWs =
      dashes ++ (p.reverse ++ [' ']) := by
    rw [List.reverse_cons, List.reverse_append, hdr, List.append_assoc]
    exact dropWhile_ws_cons '-' ('-' :: '-' :: (p.reverse ++ [' '])) rfl
  have hpe : p.isEmpty = false := by
    cases p with
    | nil => exact absurd rfl hp
    | cons b q => rfl
  unfold matchMarker
  rw [if_pos (List.isPrefixOf_iff_prefix.mpr (List.prefix_append _ _))]
  simp only [List.drop_left, hrev]
  rw [if_pos (List.isPrefixOf_iff_prefix.mpr (by rw [hdr]; exact List.prefix_append _ _))]
  have hdrop : (dashes ++ (p.reverse ++ [' '])).drop 3 = p.reverse ++ [' '] := by
    have : dashes.length = 3 := rfl
    rw [← this, List.drop_left]
  rw [hdrop]
  have hrr : (p.reverse ++ [' ']).reverse = ' ' :: p := by
    rw [List.reverse_append, List.reverse_reverse]
    rfl
  rw [hrr]
  simp only [hpe, Bool.not_false, Bool.and_true]
  rw [if_pos (show isPyWs ' ' = true by rfl)]
  rw [strip_space_cons p hp h]

theorem classify_startLine (p : Str) (hp : p ≠ []) (h : ∀ c ∈ p, isPyWs c = false) :
    classify (startLine p) = Tok.start p := by
  unfold classify startLine
  rw [matchMarker_render fileStartMarker p hp h]

theorem classify_endLine (p : Str) (hp : p ≠ []) (h : ∀ c ∈ p, isPyWs c = false) :
    classify (endLine p) = Tok.close p := by
  have hno : matchMarker fileStartMarker (fileEndMarker ++ ' ' :: (p ++ dashes)) = none := rfl
  unfold classify endLine
  rw [hno, matchMarker_render fileEndMarker p hp h]

/-- A well-formed block: a good path, and content lines that are neither
marker lines (the parser classifies them as ordinary lines) nor contain
line-break characters. -/
def goodBlock (b : Str × List Str) : Prop :=
  goodPath b.1 ∧ ∀ l ∈ b.2, classify l = Tok.other l ∧ ∀ c ∈ l, isLineBreak c = false

/-- The lines of one rendered block. -/
def renderBlock (p : Str) (content : List Str) : List Str :=
  startLine p :: content ++ [endLine p]

/-- The lines of a rendered sequence of blocks. -/
def renderBlocks (bs : List (Str × List Str)) : List Str :=
  (bs.map (fun b => renderBlock b.1 b.2)).flatten

/-- The wire text of a rendered sequence of blocks. -/
def renderText (bs : List (Str × List Str)) : Str := joinLines (renderBlocks bs)

theorem splitlinesAux_no_break : ∀ (l : Str), (∀ c ∈ l, isLineBreak c = false) →
    ∀ t acc, splitlinesAux (l ++ t) acc false = splitlinesAux t (l.reverse ++ acc) false := by
  intro l
  induction l with
  | nil => exact fun _ t acc => rfl
  | cons c l' ih =>
    intro hl t acc
    have hc := hl c (List.mem_cons_self c l')
    show splitlinesAux (c :: (l' ++ t)) acc false = _
    simp only [splitlinesAux]
    rw [if_neg (by simp), if_neg (by simp [hc])]
    rw [ih (fun d hd => hl d (List.mem_cons_of_mem c hd)) t (c :: acc)]
    simp

theorem splitlines_single (l : Str) (hl : ∀ c ∈ l, isLineBreak c = false)
    (hne : l ≠ []) : splitlines l = [l] := by
  unfold splitlines
  have h := splitlinesAux_no_break l hl [] []
  simp only [List.append_nil] at h
  rw [h]
  have hie : l.reverse.isEmpty = false := by
    cases hr : l.reverse with
    | nil => exact absurd (by simpa using congrArg List.reverse hr) hne
    | cons a t => rfl
  show (if l.reverse.isEmpty then [] else [l.reverse.reverse]) = [l]
  rw [hie]
  simp

theorem splitlines_joinLines : ∀ (ls : List Str),
    (∀ l ∈ ls, ∀ c ∈ l, isLineBreak c = false) →
    ls.getLast? ≠ some [] → splitlines (joinLines ls) = ls := by
  intro ls
  induction ls with
  | nil => exact fun _ _ => rfl
  | cons l ls' ih =>
    intro h hlast
    cases ls' with
    | nil =>
      have hne : l ≠ [] := by
        intro he
        exact hlast (by rw [he]; rfl)
      exact splitlines_single l (h l (List.mem_cons_self l [])) hne
    | cons l2 ls'' =>
      have hjoin : joinLines (l :: l2 :: ls'') = l ++ '\n' :: joinLines (l2 :: ls'') := rfl
      unfold splitlines
      rw [hjoin, splitlinesAux_no_break l (h l (List.mem_cons_self _ _)) _ []]
      simp only [splitlinesAux]
      rw [if_neg (by simp), if_pos (show isLineBreak '\n' = true from rfl)]
      have hstep := ih (fun x hx => h x (List.mem_cons_of_mem l hx))
        (by rw [List.getLast?_cons_cons] at hlast; exact hlast)
      unfold splitlines at hstep
      rw [show ('\n' == '\r') = false from rfl, hstep]
      simp

theorem scanT_open_junk : ∀ (c : List Str), (∀ l ∈ c, classify l = Tok.other l) →
    ∀ restT files p buf,
      scanT (c.map classify ++ restT) files (some p) buf =
        scanT restT files (some p) (buf ++ c) := by
  intro c
  induction c with
  | nil => intro _ restT files p buf; simp
  | cons l c' ih =>
    intro h restT files p buf
    rw [List.map_cons, h l (List.mem_cons_self l c'), List.cons_append]
    show scanT (Tok.other l :: (c'.map classify ++ restT)) files (some p) buf = _
    simp only [scanT]
    rw [ih (fun d hd => h d (List.mem_cons_of_mem l hd)) restT files p (buf ++ [l])]
    simp

theorem scanT_render_block (p : Str) (content : List Str) (hp : goodPath p)
    (hc : ∀ l ∈ content, classify l = Tok.other l) (restT : List Tok)
    (files : List (Str × List Str)) :
    scanT ((renderBlock p content).map classify ++ restT) files none [] =
      scanT restT (dictInsert files p content) none [] := by
  obtain ⟨hne, hchars⟩ := hp
  have hws : ∀ c ∈ p, isPyWs c = false := fun c hcm => (hchars c hcm).1
  unfold renderBlock
  simp only [List.map_cons, List.map_append, List.cons_append, List.append_assoc]
  rw [classify_startLine p hne hws]
  show scanT (Tok.start p :: _) files none [] = _
  simp only [scanT]
  rw [classify_endLine p hne hws]
  simp only [List.map_nil, List.nil_append]
  rw [scanT_open_junk content hc (Tok.close p :: restT) files p []]
  show scanT (Tok.close p :: restT) files (some p) content = _
  simp only [scanT]
  rw [if_pos trivial]

theorem dictInsert_ne_nil {α : Type} (d : List (Str × α)) (k : Str) (v : α) :
    dictInsert d k v ≠ [] := by
  unfold dictInsert
  split
  · rename_i hany
    intro hmap
    rw [List.map_eq_nil_iff] at hmap
    subst hmap
    simp at hany
  · simp

theorem foldl_dictInsert_ne_nil {α : Type} (g : Str × List Str → α) :
    ∀ (bs : List (Str × List Str)) (d : List (Str × α)), d ≠ [] ∨ bs ≠ [] →
      bs.foldl (fun d b => dictInsert d b.1 (g b)) d ≠ [] := by
  intro bs
  induction bs with
  | nil =>
    intro d h
    rcases h with h | h
    · exact h
    · exact absurd rfl h
  | cons b bs' ih =>
    intro d _
    rw [List.foldl_cons]
    exact ih _ (Or.inl (dictInsert_ne_nil d b.1 (g b)))

theorem dictInsert_map_val {α β : Type} (f : α → β) (d : List (Str × α)) (k : Str) (v : α) :
    (dictInsert d k v).map (fun kv => (kv.1, f kv.2)) =
      dictInsert (d.map (fun kv => (kv.1, f kv.2))) k (f v) := by
  unfold dictInsert
  have hany : (d.map (fun kv => (kv.1, f kv.2))).any (fun kv => kv.1 == k) =
      d.any (fun kv => kv.1 == k) := by
    induction d with
    | nil => rfl
    | cons kv d' ih => simp only [List.map_cons, List.any_cons, ih]
  rw [hany]
  split
  · rw [List.map_map, List.map_map]
    refine List.map_congr_left (fun kv _ => ?_)
    by_cases h : (kv.1 == k) = true
    · simp [Function.comp, h]
    · simp [Function.comp, h]
  · rw [List.map_append]
    rfl

/-- The bundle dict that a successful parse of `renderText bs` produces:
the blocks inserted left to right, each content finalized (joined,
right-stripped, one newline appended). -/
def bundleOf (bs : List (Str × List Str)) : List (Str × Str) :=
  bs.foldl (fun d b => dictInsert d b.1 (finalize b.2)) []

theorem foldl_dictInsert_map (bs : List (Str × List Str)) :
    ∀ d, (bs.foldl (fun d b => dictInsert d b.1 b.2) d).map (fun kv => (kv.1, finalize kv.2)) =
      bs.foldl (fun d b => dictInsert d b.1 (finalize b.2))
        (d.map (fun kv => (kv.1, finalize kv.2))) := by
  induction bs with
  | nil => intro d; rfl
  | cons b bs' ih =>
    intro d
    rw [List.foldl_cons, List.foldl_cons, ih, dictInsert_map_val]

theorem startLine_no_break (p : Str) (h : ∀ c ∈ p, isLineBreak c = false) :
    ∀ c ∈ startLine p, isLineBreak c = false := by
  intro c hc
  unfold startLine at hc
  rcases List.mem_append.mp hc with hc | hc
  · exact (by decide : ∀ c ∈ fileStartMarker, isLineBreak c = false) c hc
  · rcases List.mem_cons.mp hc with rfl | hc
    · rfl
    · rcases List.mem_append.mp hc with hc | hc
      · exact h c hc
      · exact (by decide : ∀ c ∈ dashes, isLineBreak c = false) c hc

theorem endLine_no_break (p : Str) (h : ∀ c ∈ p, isLineBreak c = false) :
    ∀ c ∈ endLine p, isLineBreak c = false := by
  intro c hc
  unfold endLine at hc
  rcases List.mem_append.mp hc with hc | hc
  · exact (by decide : ∀ c ∈ fileEndMarker, isLineBreak c = false) c hc
  · rcases List.mem_cons.mp hc with rfl | hc
    · rfl
    · rcases List.mem_append.mp hc with hc | hc
      · exact h c hc
      · exact (by decide : ∀ c ∈ dashes, isLineBreak c = false) c hc

theorem endLine_ne_nil (p : Str) : endLine p ≠ [] := by
  unfold endLine
  simp [fileEndMarker]

theorem renderBlock_getLast? (b : Str × List Str) :
    (renderBlock b.1 b.2).getLast? = some (endLine b.1) := by
  unfold renderBlock
  exact List.getLast?_concat (startLine b.1 :: b.2)

theorem renderBlocks_getLast?_concat (bs' : List (Str × List Str)) (b : Str × List Str) :
    (renderBlocks (bs' ++ [b])).getLast? = some (endLine b.1) := by
  unfold renderBlocks
  rw [List.map_append, List.flatten_append, List.getLast?_append]
  have h1 : (List.map (fun b => renderBlock b.1 b.2) [b]).flatten = renderBlock b.1 b.2 := by
    simp
  rw [h1, renderBlock_getLast? b]
  rfl

theorem renderBlocks_lines_no_break (bs : List (Str × List Str))
    (h : ∀ b ∈ bs, goodBlock b) :
    ∀ l ∈ renderBlocks bs, ∀ c ∈ l, isLineBreak c = false := by
  intro l hl
  unfold renderBlocks at hl
  rcases List.mem_flatten.mp hl with ⟨L, hL, hlL⟩
  rcases List.mem_map.mp hL with ⟨b, hb, rfl⟩
  obtain ⟨⟨hpne, hpchars⟩, hcontent⟩ := h b hb
  unfold renderBlock at hlL
  rcases List.mem_cons.mp hlL with rfl | hlL
  · exact startLine_no_break b.1 (fun c hc => (hpchars c hc).2)
  · rcases List.mem_append.mp hlL with hlc | hle
    · exact fun c hc => (hcontent l hlc).2 c hc
    · rw [List.mem_singleton] at hle
      subst hle
      exact endLine_no_break b.1 (fun c hc => (hpchars c hc).2)

theorem scanT_render_blocks : ∀ (bs : List (Str × List Str)),
    (∀ b ∈ bs, goodBlock b) →
    ∀ files, scanT ((renderBlocks bs).map classify) files none [] =
      scanT [] (bs.foldl (fun d b => dictInsert d b.1 b.2) files) none [] := by
  intro bs
  induction bs with
  | nil => intro _ files; rfl
  | cons b bs' ih =>
    intro h files
    have hb := h b (List.mem_cons_self b bs')
    have hflat : renderBlocks (b :: bs') = renderBlock b.1 b.2 ++ renderBlocks bs' := by
      unfold renderBlocks
      rw [List.map_cons, List.flatten_cons]
    rw [hflat, List.map_append,
      scanT_render_block b.1 b.2 hb.1 (fun l hl => (hb.2 l hl).1) _ files,
      ih (fun x hx => h x (List.mem_cons_of_mem b hx)) _]
    rfl

theorem parse_renderText (bs : List (Str × List Str)) (hne : bs ≠ [])
    (h : ∀ b ∈ bs, goodBlock b) :
    parse_file_bundle (renderText bs) = Except.ok ⟨bundleOf bs⟩ := by
  have hlast : (renderBlocks bs).getLast? ≠ some [] := by
    rcases List.eq_nil_or_concat bs with rfl | ⟨bs', b, rfl⟩
    · exact absurd rfl hne
    · rw [List.concat_eq_append, renderBlocks_getLast?_concat]
      intro hcontra
      exact endLine_ne_nil b.1 (Option.some.inj hcontra)
  have hlines : splitlines (renderText bs) = renderBlocks bs := by
    unfold renderText
    exact splitlines_joinLines (renderBlocks bs) (renderBlocks_lines_no_break bs h) hlast
  unfold parse_file_bundle
  rw [hlines, scanT_render_blocks bs h []]
  have hD : bs.foldl (fun d b => dictInsert d b.1 b.2) ([] : List (Str × List Str)) ≠ [] :=
    foldl_dictInsert_ne_nil (fun b => b.2) bs [] (Or.inr hne)
  have hDe : (bs.foldl (fun d b => dictInsert d b.1 b.2)
      ([] : List (Str × List Str))).isEmpty = false := by
    cases hD' : bs.foldl (fun d b => dictInsert d b.1 b.2) ([] : List (Str × List Str)) with
    | nil => exact absurd hD' hD
    | cons x xs => rfl
  simp only [scanT]
  rw [if_neg (by simp [hDe])]
  show Except.ok (FileBundle.mk ((bs.foldl (fun d b => dictInsert d b.1 b.2) []).map
    (fun kv => (kv.1, finalize kv.2)))) = Except.ok (FileBundle.mk (bundleOf bs))
  rw [foldl_dictInsert_map bs []]
  rfl

theorem dict_any_eq_mem_keys {α : Type} (d : List (Str × α)) (k : Str) :
    d.any (fun kv => kv.1 == k) = true ↔ k ∈ d.map Prod.fst := by
  rw [List.any_eq_true]
  constructor
  · rintro ⟨kv, hkv, hbeq⟩
    have hk : kv.1 = k := by simpa using hbeq
    exact hk ▸ List.mem_map_of_mem Prod.fst hkv
  · intro hk
    rcases List.mem_map.mp hk with ⟨kv, hkv, hfst⟩
    exact ⟨kv, hkv, by simp [hfst]⟩

theorem dictInsert_length_notmem {α : Type} (d : List (Str × α)) (k : Str) (v : α)
    (hk : k ∉ d.map Prod.fst) : (dictInsert d k v).length = d.length + 1 := by
  unfold dictInsert
  rw [if_neg (fun hany => hk ((dict_any_eq_mem_keys d k).mp hany))]
  simp

theorem dictInsert_keys_notmem {α : Type} (d : List (Str × α)) (k : Str) (v : α)
    (hk : k ∉ d.map Prod.fst) :
    (dictInsert d k v).map Prod.fst = d.map Prod.fst ++ [k] := by
  unfold dictInsert
  rw [if_neg (fun hany => hk ((dict_any_eq_mem_keys d k).mp hany))]
  rw [List.map_append]
  rfl

theorem bundleOf_length : ∀ (bs : List (Str × List Str)) (d : List (Str × Str)),
    (d.map Prod.fst ++ bs.map Prod.fst).Nodup →
    (bs.foldl (fun d b => dictInsert d b.1 (finalize b.2)) d).length =
      d.length + bs.length := by
  intro bs
  induction bs with
  | nil => intro d _; simp
  | cons b bs' ih =>
    intro d hnd
    have hb : b.1 ∉ d.map Prod.fst := by
      intro hmem
      have hdisj := List.disjoint_of_nodup_append hnd
      exact hdisj hmem (by simp)
    rw [List.foldl_cons, ih (dictInsert d b.1 (finalize b.2)) ?_,
      dictInsert_length_notmem d _ _ hb]
    · simp
      omega
    · rw [dictInsert_keys_notmem d _ _ hb, List.append_assoc]
      exact hnd

theorem dropWhile_head_false {α : Type} (p : α → Bool) :
    ∀ (l : List α) (a : α), (l.dropWhile p).head? = some a → p a = false := by
  intro l
  induction l with
  | nil => intro a ha; exact absurd ha (by simp)
  | cons x xs ih =>
    intro a ha
    rw [List.dropWhile_cons] at ha
    by_cases hx : p x = true
    · rw [if_pos hx] at ha
      exact ih a ha
    · rw [if_neg hx] at ha
      have hxa : x = a := by simpa using ha
      subst hxa
      cases hpx : p x with
      | false => rfl
      | true => exact absurd hpx hx

theorem rstrip_getLast_not_ws (s : Str) (c : Char)
    (h : (rstrip s).getLast? = some c) : isPyWs c = false := by
  unfold rstrip at h
  rw [List.getLast?_reverse] at h
  exact dropWhile_head_false isPyWs s.reverse c h

/-- A string ends with exactly one trailing newline: it is some prefix
followed by `\n`, and that prefix does not itself end in `\n`. -/
def endsOneNl (s : Str) : Prop := ∃ t, s = t ++ ['\n'] ∧ t.getLast? ≠ some '\n'

theorem finalize_endsOneNl (buf : List Str) : endsOneNl (finalize buf) := by
  refine ⟨rstrip (joinLines buf), rfl, fun hc => ?_⟩
  have hws := rstrip_getLast_not_ws (joinLines buf) '\n' hc
  exact absurd hws (by decide)

theorem mem_dictInsert {α : Type} (d : List (Str × α)) (k : Str) (v : α)
    (kv' : Str × α) (h : kv' ∈ dictInsert d k v) : kv' = (k, v) ∨ kv' ∈ d := by
  unfold dictInsert at h
  split at h
  · rcases List.mem_map.mp h with ⟨kv, hkv, heq⟩
    by_cases hb : (kv.1 == k) = true
    · rw [if_pos hb] at heq
      exact Or.inl heq.symm
    · rw [if_neg hb] at heq
      exact Or.inr (heq ▸ hkv)
  · rcases List.mem_append.mp h with h | h
    · exact Or.inr h
    · exact Or.inl (List.mem_singleton.mp h)

theorem bundleOf_values : ∀ (bs : List (Str × List Str)) (d : List (Str × Str)),
    (∀ kv ∈ d, endsOneNl kv.2) →
    ∀ kv ∈ bs.foldl (fun d b => dictInsert d b.1 (finalize b.2)) d, endsOneNl kv.2 := by
  intro bs
  induction bs with
  | nil => exact fun d hd => hd
  | cons b bs' ih =>
    intro d hd
    rw [List.foldl_cons]
    refine ih _ (fun kv hkv => ?_)
    rcases mem_dictInsert d b.1 (finalize b.2) kv hkv with rfl | hkv
    · exact finalize_endsOneNl b.2
    · exact hd kv hkv

theorem find?_cons_eq {α : Type} (p : α → Bool) (a : α) (l : List α) :
    List.find? p (a :: l) = if p a = true then some a else List.find? p l := by
  cases h : p a
  · rw [if_neg (by simp)]
    exact List.find?_cons_of_neg l (by simp [h])
  · rw [if_pos (show (true : Bool) = true from rfl)]
    exact List.find?_cons_of_pos l h

theorem find?_map_update_self {α : Type} (k : Str) (v : α) :
    ∀ (d : List (Str × α)), d.any (fun kv => kv.1 == k) = true →
      (d.map (fun kv => if kv.1 == k then (k, v) else kv)).find?
        (fun kv => kv.1 == k) = some (k, v) := by
  intro d
  induction d with
  | nil => intro hany; simp at hany
  | cons kv d' ih =>
    intro hany
    rw [List.map_cons]
    by_cases hb : (kv.1 == k) = true
    · rw [if_pos hb]
      rw [find?_cons_eq, if_pos (show ((k, v).1 == k) = true from beq_self_eq_true k)]
    · rw [if_neg hb]
      have hb' : (kv.1 == k) = false := by simpa using hb
      have hany' : d'.any (fun kv => kv.1 == k) = true := by
        rw [List.any_cons, hb', Bool.false_or] at hany
        exact hany
      rw [find?_cons_eq, if_neg (by simp [hb'])]
      exact ih hany'

theorem find?_map_update_other {α : Type} (k p : Str) (v : α) (hpk : p ≠ k) :
    ∀ (d : List (Str × α)),
      (d.map (fun kv => if kv.1 == k then (k, v) else kv)).find?
        (fun kv => kv.1 == p) = d.find? (fun kv => kv.1 == p) := by
  intro d
  induction d with
  | nil => rfl
  | cons kv d' ih =>
    rw [List.map_cons]
    by_cases hb : (kv.1 == k) = true
    · rw [if_pos hb]
      have hkvk : kv.1 = k := by simpa using hb
      have hknp : (k == p) = false := by
        simp only [beq_eq_false_iff_ne, ne_eq]
        exact fun h => hpk h.symm
      have hkvnp : (kv.1 == p) = false := by rw [hkvk]; exact hknp
      rw [find?_cons_eq, find?_cons_eq, if_neg (by simp [hknp]), if_neg (by simp [hkvnp])]
      exact ih
    · rw [if_neg hb]
      by_cases hp : (kv.1 == p) = true
      · rw [find?_cons_eq, find?_cons_eq, if_pos hp, if_pos hp]
      · have hp' : (kv.1 == p) = false := by simpa using hp
        rw [find?_cons_eq, find?_cons_eq, if_neg (by simp [hp']), if_neg (by simp [hp'])]
        exact ih

theorem dictLookup_dictInsert {α : Type} (d : List (Str × α)) (k : Str) (v : α) (p : Str) :
    dictLookup (dictInsert d k v) p = if p = k then some v else dictLookup d p := by
  by_cases hpk : p = k
  · subst hpk
    rw [if_pos rfl]
    unfold dictLookup dictInsert
    split
    · rename_i hany
      rw [find?_map_update_self p v d hany]
      rfl
    · rename_i hany
      rw [List.find?_append]
      have hnone : d.find? (fun kv => kv.1 == p) = none := by
        rw [List.find?_eq_none]
        intro kv hkv hbeq
        exact hany (List.any_eq_true.mpr ⟨kv, hkv, hbeq⟩)
      rw [hnone]
      rw [List.find?_cons_of_pos _ (by simp)]
      rfl
  · rw [if_neg hpk]
    unfold dictLookup dictInsert
    split
    · rw [find?_map_update_other k p v hpk d]
    · rw [List.find?_append]
      have hnone : List.find? (fun kv => kv.1 == p) [(k, v)] = none := by
        rw [List.find?_eq_none]
        intro kv hkv hbeq
        rw [List.mem_singleton] at hkv
        subst hkv
        have hkp : k = p := by simpa using hbeq
        exact hpk hkp.symm
      rw [hnone]
      simp

theorem bundleOf_lookup : ∀ (bs : List (Str × List Str)) (d : List (Str × Str)) (p : Str),
    dictLookup (bs.foldl (fun d b => dictInsert d b.1 (finalize b.2)) d) p =
      match (bs.filter (fun b => b.1 == p)).getLast? with
      | some b => some (finalize b.2)
      | none => dictLookup d p := by
  intro bs
  induction bs with
  | nil => intro d p; rfl
  | cons b bs' ih =>
    intro d p
    rw [List.foldl_cons, ih, List.filter_cons]
    by_cases hbp : (b.1 == p) = true
    · rw [if_pos hbp]
      cases hfl : bs'.filter (fun b => b.1 == p) with
      | nil =>
        show dictLookup (dictInsert d b.1 (finalize b.2)) p = some (finalize b.2)
        have hpb : p = b.1 := by
          have hb1 : b.1 = p := by simpa using hbp
          exact hb1.symm
        rw [dictLookup_dictInsert, if_pos hpb]
      | cons f0 fs =>
        rw [List.getLast?_cons_cons]
        rfl
    · rw [if_neg hbp]
      cases hfl : bs'.filter (fun b => b.1 == p) with
      | nil =>
        show dictLookup (dictInsert d b.1 (finalize b.2)) p = dictLookup d p
        rw [dictLookup_dictInsert, if_neg ?_]
        intro hpb
        rw [hpb] at hbp
        exact hbp (by simp)
      | cons f0 fs => rfl

/-- C4: for every well-formed wire text carrying `N` non-nested, correctly
paired blocks (rendered from a block list with whitespace-free nonempty
paths and non-marker content lines; the wire grammar requires at least one
block), the parse succeeds; with `N` distinct paths it yields exactly `N`
entries; every entry's content ends with exactly one trailing newline
regardless of trailing blank lines inside its block; and looking up any
path returns the finalized content of the last block carrying that path —
later duplicate blocks overwrite earlier ones. -/
theorem C4_parse_wellformed_blocks (bs : List (Str × List Str)) (hne : bs ≠ [])
    (h : ∀ b ∈ bs, goodBlock b) :
    parse_file_bundle (renderText bs) = Except.ok ⟨bundleOf bs⟩ ∧
    ((bs.map Prod.fst).Nodup → (bundleOf bs).length = bs.length) ∧
    (∀ kv ∈ bundleOf bs, endsOneNl kv.2) ∧
    (∀ p, dictLookup (bundleOf bs) p =
      match (bs.filter (fun b => b.1 == p)).getLast? with
      | some b => some (finalize b.2)
      | none => none) := by
  refine ⟨parse_renderText bs hne h, ?_, ?_, ?_⟩
  · intro hnd
    have hlen := bundleOf_length bs [] (by simpa using hnd)
    simpa using hlen
  · exact bundleOf_values bs [] (fun kv hkv => absurd hkv (List.not_mem_nil kv))
  · intro p
    exact bundleOf_lookup bs [] p

/-- Two demo blocks with distinct paths. -/
def demoBlocks : List (Str × List Str) :=
  [("backend/app/main.py".data, ["x = 1".data, "".data]), ("backend/run_backend.py".data, [])]

theorem demoBlocks_good : ∀ b ∈ demoBlocks, goodBlock b := by
  unfold demoBlocks goodBlock goodPath
  decide

theorem C4_witness :
    parse_file_bundle (renderText demoBlocks) = Except.ok ⟨bundleOf demoBlocks⟩ ∧
    (bundleOf demoBlocks).length = demoBlocks.length :=
  ⟨(C4_parse_wellformed_blocks demoBlocks (by decide) demoBlocks_good).1,
   (C4_parse_wellformed_blocks demoBlocks (by decide) demoBlocks_good).2.1 (by decide)⟩

/-! Support for claim C5: a declarative characterization of exactly when
`parse_file_bundle` raises, phrased over the classified line tokens. -/

/-- Whether a token is an ordinary (non-marker) line. -/
def isOtherTok : Tok → Bool
  | Tok.other _ => true
  | _ => false

/-- All tokens of a list are ordinary lines. -/
def AllOther (ts : List Tok) : Prop := ∀ t ∈ ts, isOtherTok t = true

theorem allOther_nil : AllOther [] := fun t ht => absurd ht (List.not_mem_nil t)

theorem allOther_cons (l : Str) {ts : List Tok} (h : AllOther ts) :
    AllOther (Tok.other l :: ts) := by
  intro t ht
  rcases List.mem_cons.mp ht with rfl | ht
  · rfl
  · exact h t ht

/-- Token lists after which the scanner is back in the closed state with no
error: a sequence of junk lines and complete, correctly paired,
non-nested blocks. -/
inductive ClosedRun : List Tok → Prop where
  | nil : ClosedRun []
  | junk (l : Str) (ts : List Tok) : ClosedRun ts → ClosedRun (Tok.other l :: ts)
  | block (p : Str) (mid ts : List Tok) : AllOther mid → ClosedRun ts →
      ClosedRun (Tok.start p :: (mid ++ Tok.close p :: ts))

theorem closedRun_append {a b : List Tok} (ha : ClosedRun a) (hb : ClosedRun b) :
    ClosedRun (a ++ b) := by
  induction ha with
  | nil => exact hb
  | junk l ts _ ih => exact ClosedRun.junk l (ts ++ b) ih
  | block p mid ts hmid _ ih =>
    have hshape : (Tok.start p :: (mid ++ Tok.close p :: ts)) ++ b =
        Tok.start p :: (mid ++ Tok.close p :: (ts ++ b)) := by simp
    rw [hshape]
    exact ClosedRun.block p mid (ts ++ b) hmid ih

/-- Error condition (a): a start marker appears while another block is
still open. -/
def NestedStartCond (ts : List Tok) : Prop :=
  ∃ u p mid q v, ts = u ++ Tok.start p :: (mid ++ Tok.start q :: v) ∧
    ClosedRun u ∧ AllOther mid

/-- Error condition (b): an end marker's path differs from the currently
open block's path. -/
def MismatchedEndCond (ts : List Tok) : Prop :=
  ∃ u p mid q v, ts = u ++ Tok.start p :: (mid ++ Tok.close q :: v) ∧
    ClosedRun u ∧ AllOther mid ∧ q ≠ p

/-- Error condition (c): an end marker appears with no open block. -/
def EndWithoutStartCond (ts : List Tok) : Prop :=
  ∃ u q v, ts = u ++ Tok.close q :: v ∧ ClosedRun u

/-- Error condition (d): the input ends with a block still open. -/
def UnclosedCond (ts : List Tok) : Prop :=
  ∃ u p mid, ts = u ++ Tok.start p :: mid ∧ ClosedRun u ∧ AllOther mid

/-- The input contains at least one complete, correctly paired block. -/
def CompleteBlockIn (ts : List Tok) : Prop :=
  ∃ u p mid v, ts = u ++ Tok.start p :: (mid ++ Tok.close p :: v) ∧ AllOther mid

/-- Conditions (a)–(d) combined: the errors raised inside the scanning
loop. -/
def ScanErrCond (ts : List Tok) : Prop :=
  NestedStartCond ts ∨ MismatchedEndCond ts ∨ EndWithoutStartCond ts ∨ UnclosedCond ts

theorem nestedStart_prepend (u₀ v : List Tok) (h0 : ClosedRun u₀) :
    NestedStartCond v → NestedStartCond (u₀ ++ v) := by
  rintro ⟨u, p, mid, q, w, rfl, hu, hmid⟩
  exact ⟨u₀ ++ u, p, mid, q, w, by simp, closedRun_append h0 hu, hmid⟩

theorem mismatchedEnd_prepend (u₀ v : List Tok) (h0 : ClosedRun u₀) :
    MismatchedEndCond v → MismatchedEndCond (u₀ ++ v) := by
  rintro ⟨u, p, mid, q, w, rfl, hu, hmid, hqp⟩
  exact ⟨u₀ ++ u, p, mid, q, w, by simp, closedRun_append h0 hu, hmid, hqp⟩

theorem endWithoutStart_prepend (u₀ v : List Tok) (h0 : ClosedRun u₀) :
    EndWithoutStartCond v → EndWithoutStartCond (u₀ ++ v) := by
  rintro ⟨u, q, w, rfl, hu⟩
  exact ⟨u₀ ++ u, q, w, by simp, closedRun_append h0 hu⟩

theorem unclosed_prepend (u₀ v : List Tok) (h0 : ClosedRun u₀) :
    UnclosedCond v → UnclosedCond (u₀ ++ v) := by
  rintro ⟨u, p, mid, rfl, hu, hmid⟩
  exact ⟨u₀ ++ u, p, mid, by simp, closedRun_append h0 hu, hmid⟩

theorem scanErr_prepend (u₀ v : List Tok) (h0 : ClosedRun u₀) :
    ScanErrCond v → ScanErrCond (u₀ ++ v) := by
  rintro (h | h | h | h)
  · exact Or.inl (nestedStart_prepend u₀ v h0 h)
  · exact Or.inr (Or.inl (mismatchedEnd_prepend u₀ v h0 h))
  · exact Or.inr (Or.inr (Or.inl (endWithoutStart_prepend u₀ v h0 h)))
  · exact Or.inr (Or.inr (Or.inr (unclosed_prepend u₀ v h0 h)))

theorem scanErr_cons_other (l : Str) (v : List Tok) :
    ScanErrCond v → ScanErrCond (Tok.other l :: v) :=
  scanErr_prepend [Tok.other l] v (ClosedRun.junk l [] ClosedRun.nil)

theorem dictInsert_isEmpty_false {α : Type} (d : List (Str × α)) (k : Str) (v : α) :
    (dictInsert d k v).isEmpty = false := by
  cases hD : dictInsert d k v with
  | nil => exact absurd hD (dictInsert_ne_nil d k v)
  | cons x xs => rfl

theorem scanT_junk_open : ∀ (mid : List Tok), AllOther mid →
    ∀ (d : List (Str × List Str)) (p : Str) (buf : List Str),
      ∃ buf', ∀ rest, scanT (mid ++ rest) d (some p) buf = scanT rest d (some p) buf' := by
  intro mid
  induction mid with
  | nil => exact fun _ d p buf => ⟨buf, fun rest => rfl⟩
  | cons t mid' ih =>
    intro h d p buf
    cases t with
    | start q =>
      have := h _ (List.mem_cons_self _ _)
      simp [isOtherTok] at this
    | close q =>
      have := h _ (List.mem_cons_self _ _)
      simp [isOtherTok] at this
    | other l =>
      obtain ⟨buf', hbuf⟩ := ih (fun t ht => h t (List.mem_cons_of_mem _ ht)) d p (buf ++ [l])
      exact ⟨buf', fun rest => hbuf rest⟩

theorem scanT_closed_prefix : ∀ (u : List Tok), ClosedRun u →
    ∀ (d : List (Str × List Str)),
      ∃ d', ∀ rest, scanT (u ++ rest) d none [] = scanT rest d' none [] := by
  intro u hu
  induction hu with
  | nil => exact fun d => ⟨d, fun rest => rfl⟩
  | junk l ts _ ih =>
    intro d
    obtain ⟨d', hd'⟩ := ih d
    exact ⟨d', fun rest => hd' rest⟩
  | block p mid ts hmid _ ih =>
    intro d
    obtain ⟨buf', hbuf⟩ := scanT_junk_open mid hmid d p []
    obtain ⟨d', hd'⟩ := ih (dictInsert d p buf')
    refine ⟨d', fun rest => ?_⟩
    have hshape : (Tok.start p :: (mid ++ Tok.close p :: ts)) ++ rest =
        Tok.start p :: (mid ++ (Tok.close p :: (ts ++ rest))) := by simp
    rw [hshape]
    show scanT (mid ++ (Tok.close p :: (ts ++ rest))) d (some p) [] = _
    rw [hbuf (Tok.close p :: (ts ++ rest))]
    rw [show scanT (Tok.close p :: (ts ++ rest)) d (some p) buf' =
      scanT (ts ++ rest) (dictInsert d p buf') none [] from by simp [scanT]]
    exact hd' rest

theorem scanT_ok_complete_open : ∀ (ts : List Tok) (d : List (Str × List Str)) (p : Str)
    (buf : List Str) (fs : List (Str × List Str)),
    scanT ts d (some p) buf = Except.ok fs →
    ∃ mid v, ts = mid ++ Tok.close p :: v ∧ AllOther mid := by
  intro ts
  induction ts with
  | nil =>
    intro d p buf fs h
    exact absurd h (by simp [scanT])
  | cons t rest ih =>
    intro d p buf fs h
    cases t with
    | start q => exact absurd h (by simp [scanT])
    | close q =>
      by_cases hq : q = p
      · exact ⟨[], rest, by rw [hq]; rfl, allOther_nil⟩
      · rw [show scanT (Tok.close q :: rest) d (some p) buf =
          Except.error FileBundleParseError.mismatchedEnd from by simp [scanT, hq]] at h
        exact absurd h (by simp)
    | other l =>
      have h' : scanT rest d (some p) (buf ++ [l]) = Except.ok fs := h
      obtain ⟨mid, v, heq, hmid⟩ := ih d p (buf ++ [l]) fs h'
      exact ⟨Tok.other l :: mid, v, by rw [heq]; rfl, allOther_cons l hmid⟩

theorem scanT_ok_complete : ∀ (ts : List Tok) (fs d : List (Str × List Str)),
    scanT ts d none [] = Except.ok fs → d = [] → CompleteBlockIn ts := by
  intro ts
  induction ts with
  | nil =>
    intro fs d h hd
    subst hd
    exact absurd h (by simp [scanT])
  | cons t rest ih =>
    intro fs d h hd
    cases t with
    | start p =>
      have h' : scanT rest d (some p) [] = Except.ok fs := h
      obtain ⟨mid, v, heq, hmid⟩ := scanT_ok_complete_open rest d p [] fs h'
      exact ⟨[], p, mid, v, by rw [heq]; rfl, hmid⟩
    | close q => exact absurd h (by simp [scanT])
    | other l =>
      have h' : scanT rest d none [] = Except.ok fs := h
      obtain ⟨u, p, mid, v, heq, hmid⟩ := ih fs d h' hd
      exact ⟨Tok.other l :: u, p, mid, v, by rw [heq]; rfl, hmid⟩

/-- What can make the scanner fail from the open state `(p, buf)`: the next
marker is a nested start, a mismatched end, the input runs out with the
block still open, or the block closes properly and the failure lies in the
remainder. -/
def OpenErr (p : Str) (ts : List Tok) : Prop :=
  (∃ mid q v, ts = mid ++ Tok.start q :: v ∧ AllOther mid) ∨
  (∃ mid q v, ts = mid ++ Tok.close q :: v ∧ AllOther mid ∧ q ≠ p) ∨
  AllOther ts ∨
  (∃ mid v, ts = mid ++ Tok.close p :: v ∧ AllOther mid ∧ ScanErrCond v)

theorem scan_err_master_nil :
    (∀ d : List (Str × List Str), isErrE (scanT [] d none []) = true →
      ScanErrCond [] ∨ (d.isEmpty = true ∧ AllOther [])) ∧
    (∀ (d : List (Str × List Str)) (p : Str) (buf : List Str),
      isErrE (scanT [] d (some p) buf) = true → OpenErr p []) := by
  constructor
  · intro d herr
    right
    refine ⟨?_, allOther_nil⟩
    cases hie : d.isEmpty with
    | false =>
      rw [show scanT [] d none [] = Except.ok d from by simp [scanT, hie]] at herr
      exact absurd herr (by simp [isErrE])
    | true => rfl
  · intro d p buf _
    exact Or.inr (Or.inr (Or.inl allOther_nil))

theorem scan_err_master : ∀ (n : Nat) (ts : List Tok), ts.length ≤ n →
    (∀ d : List (Str × List Str), isErrE (scanT ts d none []) = true →
      ScanErrCond ts ∨ (d.isEmpty = true ∧ AllOther ts)) ∧
    (∀ (d : List (Str × List Str)) (p : Str) (buf : List Str),
      isErrE (scanT ts d (some p) buf) = true → OpenErr p ts) := by
  intro n
  induction n with
  | zero =>
    intro ts hlen
    have hnil : ts = [] := List.eq_nil_of_length_eq_zero (Nat.le_zero.mp hlen)
    subst hnil
    exact scan_err_master_nil
  | succ n ih =>
    intro ts hlen
    cases ts with
    | nil => exact scan_err_master_nil
    | cons t rest =>
      have hlen' : rest.length ≤ n := by
        rw [List.length_cons] at hlen
        omega
      have hrest := ih rest hlen'
      constructor
      · intro d herr
        cases t with
        | other l =>
          have herr' : isErrE (scanT rest d none []) = true := herr
          rcases hrest.1 d herr' with hc | ⟨hie, hao⟩
          · exact Or.inl (scanErr_cons_other l rest hc)
          · exact Or.inr ⟨hie, allOther_cons l hao⟩
        | close q =>
          exact Or.inl (Or.inr (Or.inr (Or.inl ⟨[], q, rest, rfl, ClosedRun.nil⟩)))
        | start p =>
          have herr' : isErrE (scanT rest d (some p) []) = true := herr
          rcases hrest.2 d p [] herr' with
            ⟨mid, q, v, rfl, hmid⟩ | ⟨mid, q, v, rfl, hmid, hqp⟩ | hao |
            ⟨mid, v, rfl, hmid, hv⟩
          · exact Or.inl (Or.inl ⟨[], p, mid, q, v, rfl, ClosedRun.nil, hmid⟩)
          · exact Or.inl (Or.inr (Or.inl ⟨[], p, mid, q, v, rfl, ClosedRun.nil, hmid, hqp⟩))
          · exact Or.inl (Or.inr (Or.inr (Or.inr ⟨[], p, rest, rfl, ClosedRun.nil, hao⟩)))
          · refine Or.inl ?_
            have h0 : ClosedRun (Tok.start p :: (mid ++ Tok.close p :: ([] : List Tok))) :=
              ClosedRun.block p mid [] hmid ClosedRun.nil
            have hlift := scanErr_prepend _ v h0 hv
            rw [show (Tok.start p :: (mid ++ Tok.close p :: ([] : List Tok))) ++ v =
              Tok.start p :: (mid ++ Tok.close p :: v) by simp] at hlift
            exact hlift
      · intro d p buf herr
        cases t with
        | start q => exact Or.inl ⟨[], q, rest, rfl, allOther_nil⟩
        | close q =>
          by_cases hq : q = p
          · subst hq
            have hstep : scanT (Tok.close q :: rest) d (some q) buf =
                scanT rest (dictInsert d q buf) none [] := by simp [scanT]
            rw [hstep] at herr
            rcases hrest.1 (dictInsert d q buf) herr with hc | ⟨hie, _⟩
            · exact Or.inr (Or.inr (Or.inr ⟨[], rest, rfl, allOther_nil, hc⟩))
            · rw [dictInsert_isEmpty_false d q buf] at hie
              exact absurd hie (by simp)
          · exact Or.inr (Or.inl ⟨[], q, rest, rfl, allOther_nil, hq⟩)
        | other l =>
          have herr' : isErrE (scanT rest d (some p) (buf ++ [l])) = true := herr
          rcases hrest.2 d p (buf ++ [l]) herr' with
            ⟨mid, q, v, rfl, hmid⟩ | ⟨mid, q, v, rfl, hmid, hqp⟩ | hao |
            ⟨mid, v, rfl, hmid, hv⟩
          · exact Or.inl ⟨Tok.other l :: mid, q, v, rfl, allOther_cons l hmid⟩
          · exact Or.inr (Or.inl ⟨Tok.other l :: mid, q, v, rfl, allOther_cons l hmid, hqp⟩)
          · exact Or.inr (Or.inr (Or.inl (allOther_cons l hao)))
          · exact Or.inr (Or.inr (Or.inr ⟨Tok.other l :: mid, v, rfl, allOther_cons l hmid, hv⟩))

theorem parse_isErr_eq_scan (text : Str) :
    isErrE (parse_file_bundle text) =
      isErrE (scanT ((splitlines text).map classify) [] none []) := by
  unfold parse_file_bundle
  cases h : scanT ((splitlines text).map classify) [] none [] <;> rfl

theorem scanErr_isErr (ts : List Tok) (h : ScanErrCond ts) :
    isErrE (scanT ts [] none []) = true := by
  rcases h with ⟨u, p, mid, q, v, rfl, hu, hmid⟩ | ⟨u, p, mid, q, v, rfl, hu, hmid, hqp⟩ |
    ⟨u, q, v, rfl, hu⟩ | ⟨u, p, mid, rfl, hu, hmid⟩
  · obtain ⟨d', hd'⟩ := scanT_closed_prefix u hu []
    rw [hd' (Tok.start p :: (mid ++ Tok.start q :: v))]
    have hstep : scanT (Tok.start p :: (mid ++ Tok.start q :: v)) d' none [] =
        scanT (mid ++ Tok.start q :: v) d' (some p) [] := rfl
    rw [hstep]
    obtain ⟨buf', hbuf⟩ := scanT_junk_open mid hmid d' p []
    rw [hbuf (Tok.start q :: v)]
    rfl
  · obtain ⟨d', hd'⟩ := scanT_closed_prefix u hu []
    rw [hd' (Tok.start p :: (mid ++ Tok.close q :: v))]
    have hstep : scanT (Tok.start p :: (mid ++ Tok.close q :: v)) d' none [] =
        scanT (mid ++ Tok.close q :: v) d' (some p) [] := rfl
    rw [hstep]
    obtain ⟨buf', hbuf⟩ := scanT_junk_open mid hmid d' p []
    rw [hbuf (Tok.close q :: v)]
    rw [show scanT (Tok.close q :: v) d' (some p) buf' =
      Except.error FileBundleParseError.mismatchedEnd from by simp [scanT, hqp]]
    rfl
  · obtain ⟨d', hd'⟩ := scanT_closed_prefix u hu []
    rw [hd' (Tok.close q :: v)]
    rfl
  · obtain ⟨d', hd'⟩ := scanT_closed_prefix u hu []
    rw [hd' (Tok.start p :: mid)]
    have hstep : scanT (Tok.start p :: mid) d' none [] = scanT mid d' (some p) [] := rfl
    rw [hstep]
    obtain ⟨buf', hbuf⟩ := scanT_junk_open mid hmid d' p []
    have hend := hbuf []
    rw [List.append_nil] at hend
    rw [hend]
    rfl

/-- C5: `parse_file_bundle` raises a parse error exactly when one of the
claim's five conditions holds of the classified input lines: (a) a start
marker while a block is open, (b) a mismatched end-marker path, (c) an end
marker with no open block, (d) end of input with a block still open, or
(e) no complete block anywhere in the input. -/
theorem C5_parse_error_characterization (text : Str) :
    isErrE (parse_file_bundle text) = true ↔
      (NestedStartCond ((splitlines text).map classify) ∨
       MismatchedEndCond ((splitlines text).map classify) ∨
       EndWithoutStartCond ((splitlines text).map classify) ∨
       UnclosedCond ((splitlines text).map classify) ∨
       ¬ CompleteBlockIn ((splitlines text).map classify)) := by
  rw [parse_isErr_eq_scan]
  generalize (splitlines text).map classify = ts
  constructor
  · intro herr
    rcases (scan_err_master ts.length ts (le_refl _)).1 [] herr with hc | ⟨_, hao⟩
    · rcases hc with h | h | h | h
      · exact Or.inl h
      · exact Or.inr (Or.inl h)
      · exact Or.inr (Or.inr (Or.inl h))
      · exact Or.inr (Or.inr (Or.inr (Or.inl h)))
    · refine Or.inr (Or.inr (Or.inr (Or.inr ?_)))
      rintro ⟨u, p, mid, v, rfl, hmid⟩
      have hstartmem : Tok.start p ∈ u ++ Tok.start p :: (mid ++ Tok.close p :: v) :=
        List.mem_append.mpr (Or.inr (List.mem_cons_self _ _))
      have := hao _ hstartmem
      simp [isOtherTok] at this
  · intro hcond
    rcases hcond with h | h | h | h | h
    · exact scanErr_isErr ts (Or.inl h)
    · exact scanErr_isErr ts (Or.inr (Or.inl h))
    · exact scanErr_isErr ts (Or.inr (Or.inr (Or.inl h)))
    · exact scanErr_isErr ts (Or.inr (Or.inr (Or.inr h)))
    · cases hscan : scanT ts [] none [] with
      | error e => rfl
      | ok fs => exact absurd (scanT_ok_complete ts fs [] hscan rfl) h

end Codec

end ASET
